import Mathlib

/-!
Shallow embedding of `app.py` (hearthis-search): a query-fan-out aggregator.
Pure parts (scorer, parsing) become Lean functions; the network is modelled by
passing fetch responses / completion-order item streams as explicit inputs;
Python exceptions in the ranking step become `Except`.
-/

set_option linter.unusedVariables false

namespace App

/-- A JSON scalar value as it may appear in a track field (`playback_count`
can arrive as a number, a string, or `null` from the untrusted remote API). -/
inductive PyVal where
  | null
  | int (n : Int)
  | str (s : String)
deriving DecidableEq

/-- A dict-shaped item from the remote catalog, with the fields `app.py` reads:
`id`, `title`, `user.username`, `download_url`, `playback_count`, and the
synthesised `_score` key (`score` here). `none` models an absent key; for
`id` and `download_url` the empty string models a present-but-falsy value. -/
structure Track where
  id : Option String := none
  title : String := ""
  username : String := ""
  download_url : Option String := none
  playback_count : Option PyVal := none
  score : Option Nat := none
deriving DecidableEq

/-- Python truthiness of `x.get(key)` for an optional string field. -/
def isTruthy : Option String → Bool
  | none => false
  | some s => s ≠ ""

/-- Helper: `leadsWith n h` holds when the char list `n` is an initial segment of `h`. -/
def leadsWith : List Char → List Char → Bool
  | [], _ => true
  | _ :: _, [] => false
  | a :: as, b :: bs => (a == b) && leadsWith as bs

/-- Helper: `occursIn n h` holds when the char list `n` occurs contiguously inside `h`. -/
def occursIn (needle : List Char) : List Char → Bool
  | [] => leadsWith needle []
  | b :: bs => leadsWith needle (b :: bs) || occursIn needle bs

/-- Python's `needle in hay` on strings: contiguous substring containment. -/
def py_in (needle hay : String) : Bool := occursIn needle.toList hay.toList

/-- Python's `s.lower()` (character-wise lower-casing). -/
def pylower (s : String) : String := String.mk (s.data.map Char.toLower)

/-- Python's `s.strip()`: drop leading and trailing whitespace. -/
def pystrip (s : String) : String :=
  String.mk (((s.data.dropWhile Char.isWhitespace).reverse.dropWhile Char.isWhitespace).reverse)

/-- Accumulator loop for `pysplit`: gather maximal non-whitespace runs. -/
def wordsAux : List Char → List Char → List String
  | [], acc => if acc.isEmpty then [] else [String.mk acc.reverse]
  | c :: cs, acc =>
    if c.isWhitespace then
      if acc.isEmpty then wordsAux cs [] else String.mk acc.reverse :: wordsAux cs []
    else wordsAux cs (c :: acc)

/-- Python's `s.split()`: split on whitespace runs, discarding empty parts. -/
def pysplit (s : String) : List String := wordsAux s.data []

/-- The deduplicated word set of a string (helper for the fuzzy similarity). -/
def tokens (s : String) : List String := (pysplit s).dedup

/-- Modelled from the spec: `fuzz.token_set_ratio` (rapidfuzz library code, not
part of this repository) — "a fuzzy token-set similarity (0-100) between the
query and the concatenation of title and owner name — order-independent".
Modelled as a Dice coefficient on the deduplicated word sets. -/
def token_set_score (a b : String) : Nat :=
  let ta := tokens a
  let tb := tokens b
  if ta.length + tb.length = 0 then 0
  else (200 * ((ta.filter (fun w => w ∈ tb)).length)) / (ta.length + tb.length)

/-- The concatenation `f"{title} {user}"` with both parts lower-cased, as built in
`calculate_score` (app.py line 49). -/
def combined (t : Track) : String := pylower t.title ++ " " ++ pylower t.username

/-- The split-match test of `calculate_score` (app.py line 56):
`len(query_parts) > 1 and all(part in combined for part in query_parts)`. -/
def split_match (query : String) (t : Track) : Bool :=
  let query_parts := pysplit query
  decide (1 < query_parts.length) && query_parts.all (fun p => py_in p (combined t))

/-- The scorer `calculate_score` (app.py lines 46-65), parameterised by the external fuzzy
similarity `fz` (rapidfuzz's token-set similarity in the real program):
exact title containment → 100; split match → 95; otherwise fuzzy value plus a
+5 bonus when `download_url` is truthy. -/
def calculate_score (fz : String → String → Nat) (query : String) (track : Track) : Nat :=
  if py_in query (pylower track.title) then 100
  else if split_match query track then 95
  else
    let score := fz query (combined track)
    if isTruthy track.download_url then score + 5 else score

/-- Digit-run accumulator for `str2int?`: `none` at the first non-digit. -/
def natFromChars : List Char → Nat → Option Nat
  | [], acc => some acc
  | c :: cs, acc => if c.isDigit then natFromChars cs (acc * 10 + (c.toNat - 48)) else none

/-- Python `int(s)` on a string: optional surrounding whitespace, optional
sign, a non-empty run of decimal digits; `none` models the `ValueError`
raised otherwise (digit-group underscores are not modelled). -/
def str2int? (s : String) : Option Int :=
  match (pystrip s).data with
  | [] => none
  | '-' :: rest =>
    if rest.isEmpty then none else (natFromChars rest 0).map (fun n => -(n : Int))
  | '+' :: rest =>
    if rest.isEmpty then none else (natFromChars rest 0).map (fun n => (n : Int))
  | l => (natFromChars l 0).map (fun n => (n : Int))

/-- Python `int(v)` on a JSON field value; `none` models the raised
`TypeError`/`ValueError` (e.g. `int(None)` or `int("12a")`). -/
def pyInt? : PyVal → Option Int
  | .null => none
  | .int n => some n
  | .str s => str2int? s

/-- The sort-key parse `int(x.get('playback_count', 0))` (app.py line 169): 0 when the key is
missing, otherwise the parse of the stored value; `none` models the raised
exception for present-but-unparsable values. -/
def parsePlays (t : Track) : Option Int :=
  match t.playback_count with
  | none => some 0
  | some v => pyInt? v

/-- The parsed popularity counter with a 0 default (only used to state
properties of runs in which every parse succeeded). -/
def playsD (t : Track) : Int := (parsePlays t).getD 0

/-- The score the collection loop ends up using for `t`: the pre-attached
`_score` if present, else a fresh `calculate_score` (app.py lines 160-161). -/
def scoreOf (fz : String → String → Nat) (q : String) (t : Track) : Nat :=
  match t.score with
  | some s => s
  | none => calculate_score fz q t

/-- The score fill-in `if '_score' not in t: t['_score'] = calculate_score(q, t)`
(app.py lines 160-161). -/
def fill (fz : String → String → Nat) (q : String) (t : Track) : Track :=
  match t.score with
  | some _ => t
  | none => { t with score := some (calculate_score fz q t) }

/-- An item qualifies for the result list iff its `id` is truthy and its
(attached or computed) score exceeds the floor of 45. -/
def qualifies (fz : String → String → Nat) (q : String) (t : Track) : Bool :=
  match t.id with
  | none => false
  | some i => i ≠ "" && decide (45 < scoreOf fz q t)

/-- The result-gathering loop of `search` (app.py lines 153-166): walk the
completed items in completion order, keep an item when its id is truthy,
unseen, and its score exceeds 45; record the id as seen exactly then. -/
def collectLoop (fz : String → String → Nat) (q : String) (seen : List String) :
    List Track → List Track
  | [] => []
  | t :: ts =>
    match t.id with
    | none => collectLoop fz q seen ts
    | some tid =>
      if tid = "" then collectLoop fz q seen ts
      else if tid ∈ seen then collectLoop fz q seen ts
      else
        let t' := fill fz q t
        if 45 < t'.score.getD 0 then t' :: collectLoop fz q (tid :: seen) ts
        else collectLoop fz q seen ts

/-- The descending ranking order of app.py line 169: `a` sorts before `b` iff
`a`'s key tuple `(_score, playback_count)` is lexicographically ≥ `b`'s. -/
def rankGE (a b : Track) : Prop :=
  b.score.getD 0 < a.score.getD 0 ∨
    (a.score.getD 0 = b.score.getD 0 ∧ playsD b ≤ playsD a)

instance : DecidableRel rankGE := fun a b => by
  unfold rankGE; infer_instance

instance : IsTotal Track rankGE := by
  constructor
  intro a b
  unfold rankGE
  rcases Nat.lt_trichotomy (a.score.getD 0) (b.score.getD 0) with h | h | h
  · exact Or.inr (Or.inl h)
  · rcases Int.le_total (playsD a) (playsD b) with hp | hp
    · exact Or.inr (Or.inr ⟨h.symm, hp⟩)
    · exact Or.inl (Or.inr ⟨h, hp⟩)
  · exact Or.inl (Or.inl h)

instance : IsTrans Track rankGE := by
  constructor
  intro a b c hab hbc
  unfold rankGE at hab hbc ⊢
  rcases hab with h1 | ⟨h1, p1⟩ <;> rcases hbc with h2 | ⟨h2, p2⟩
  · exact Or.inl (Nat.lt_trans h2 h1)
  · exact Or.inl (h2 ▸ h1)
  · exact Or.inl (h1 ▸ h2)
  · exact Or.inr ⟨h1.trans h2, Int.le_trans p2 p1⟩

/-- The ranking step (app.py lines 168-172):
`results.sort(key=lambda x: (x.get('_score', 0), int(x.get('playback_count', 0))), reverse=True)`
followed by `results[:150]`. Python computes `int(...)` for every element's
sort key; an unparsable `playback_count` raises, modelled as `Except.error`. -/
def rank (l : List Track) : Except Unit (List Track) :=
  if l.all (fun t => (parsePlays t).isSome) then
    Except.ok ((List.insertionSort rankGE l).take 150)
  else Except.error ()

/-- A decoded JSON array element: either dict-shaped (a track record) or not
(the code's `isinstance(t, dict)` checks). -/
inductive JsonItem where
  | dict (t : Track)
  | nondict
deriving DecidableEq

/-- The decoded shape of a response body: a JSON array, a JSON object (keys to
values), or any other JSON value. -/
inductive JsonShape where
  | jlist (items : List JsonItem)
  | jobj (kvs : List (String × JsonItem))
  | jother
deriving DecidableEq

/-- One HTTP exchange as seen by a fetcher: either the request/decode raised
(`exc` — network error, timeout; a body of `none` means `r.json()` raised), or
a status code with an optionally-decodable body. -/
inductive Response where
  | exc
  | resp (status : Nat) (body : Option JsonShape)
deriving DecidableEq

/-- Is a decoded array element dict-shaped? (`isinstance(v, dict)`). -/
def isDict : JsonItem → Bool
  | .dict _ => true
  | .nondict => false

/-- The broad fetcher `fetch_global` (app.py lines 70-87): on any exception return `[]`; on a
non-200 status return `[]`; a JSON array is returned as-is (non-dict elements
included); a JSON object yields its dict-shaped values; anything else `[]`. -/
def fetch_global (r : Response) : List JsonItem :=
  match r with
  | .exc => []
  | .resp status body =>
    if status ≠ 200 then []
    else
      match body with
      | none => []
      | some (.jlist xs) => xs
      | some (.jobj kvs) => (kvs.map (fun kv => kv.2)).filter isDict
      | some .jother => []

/-- The per-item loop of `fetch_artist` (app.py lines 104-111): keep each
dict-shaped item scoring strictly above 45, attaching its `_score`. -/
def artistMatches (fz : String → String → Nat) (query : String) :
    List JsonItem → List Track
  | [] => []
  | .nondict :: rest => artistMatches fz query rest
  | .dict t :: rest =>
    let score := calculate_score fz query t
    if 45 < score then { t with score := some score } :: artistMatches fz query rest
    else artistMatches fz query rest

/-- The entity fetcher `fetch_artist` (app.py lines 89-114): on any exception (including a failed
`r.json()`) return `[]`; note the HTTP status is never inspected; a JSON array
body is filtered through the scorer with the >45 floor; non-array bodies match
nothing. -/
def fetch_artist (fz : String → String → Nat) (artist query : String)
    (r : Response) : List Track :=
  match r with
  | .exc => []
  | .resp _status body =>
    match body with
    | none => []
    | some (.jlist xs) => artistMatches fz query xs
    | some _ => []

/-- Query normalization `request.args.get("q", "").strip().lower()` (app.py line 126). -/
def normalize (s : String) : String := pylower (pystrip s)

/-- One entry of the TTL cache: key, absolute expiry instant, stored value. -/
structure CacheEntry where
  key : String
  expire : Nat
  val : List Track
deriving DecidableEq

/-- The `SEARCH_CACHE` contents (capacity eviction is not modelled; the claims
about the cache are conditioned on no eviction occurring). -/
abbrev Cache := List CacheEntry

/-- Cache lookup `q in SEARCH_CACHE` / `SEARCH_CACHE[q]` at time `now`: an entry is visible
only before its expiry instant (cachetools `TTLCache` semantics). -/
def cacheGet (c : Cache) (now : Nat) (k : String) : Option (List Track) :=
  match c.find? (fun e => e.key == k) with
  | some e => if now < e.expire then some e.val else none
  | none => none

/-- Cache insertion `SEARCH_CACHE[q] = v`: replace any entry for the key, expiring at
insertion time + TTL. -/
def cachePut (c : Cache) (expire : Nat) (k : String) (v : List Track) : Cache :=
  ⟨k, expire, v⟩ :: c.filter (fun e => e.key != k)

/-- The `/search` route (app.py lines 123-176) as a function of the cache
state, the current time, and the fetchers' outputs in completion order
(`streams`, the 23 futures' results). Returns the response (`Except.error`
models an uncaught exception, i.e. an HTTP 500), the new cache state, and the
number of fetch operations dispatched (0 on short-circuit or cache hit, 23 =
3 global pages + 20 artists on a miss). -/
def search (fz : String → String → Nat) (cache : Cache) (now : Nat)
    (streams : List (List Track)) (rawq : String) :
    Except Unit (List Track) × Cache × Nat :=
  let q := normalize rawq
  if q.length < 2 then (Except.ok [], cache, 0)
  else
    match cacheGet cache now q with
    | some v => (Except.ok v, cache, 0)
    | none =>
      let results := collectLoop fz q [] streams.flatten
      match rank results with
      | Except.error e => (Except.error e, cache, 23)
      | Except.ok final => (Except.ok final, cachePut cache (now + 1800) q final, 23)

/-! ### Concrete sample items, used to evaluate the pipeline on closed inputs -/

/-- An item whose title contains the query "zzzz"; id "7". -/
def tGood : Track := { id := some "7", title := "zzzz song" }

/-- An item sharing id "7" whose title is unrelated to the query "zzzz". -/
def tMiss : Track := { id := some "7", title := "aaaa" }

/-- A second item with id "7" whose title contains the query "zzzz". -/
def tHit : Track := { id := some "7", title := "zzzz hit" }

/-- An item matching the query "song ok" whose `playback_count` is the
unparsable string "12a". -/
def tBad : Track :=
  { id := some "9", title := "song ok remix", playback_count := some (PyVal.str "12a") }

/-- An item whose title contains the query "zz". -/
def tZ : Track := { id := some "3", title := "zz remix" }

/-- A downloadable item whose title contains the query "zzzz". -/
def dlTrack : Track :=
  { id := some "8", title := "zzzz song", download_url := some "https://hearthis.at/dl/8" }

/-- A downloadable item unrelated to the query "zzzz" (fuzzy branch). -/
def fuzzyTrack : Track :=
  { id := some "5", title := "aaaa", download_url := some "https://hearthis.at/dl/5" }

/-- The spec's §8 scenario item: downloadable, split-matches "swag wakhra". -/
def wakhraTrack : Track :=
  { id := some "42", title := "Wakhra Swag Remix", username := "djX",
    download_url := some "https://hearthis.at/dl/42",
    playback_count := some (PyVal.str "1000") }

/-! ### Helper lemmas -/

theorem token_set_score_le (a b : String) : token_set_score a b ≤ 100 := by
  have h1 : ((tokens a).filter (fun w => w ∈ tokens b)).length ≤ (tokens a).length :=
    List.length_filter_le _ _
  have h2 : ((tokens a).filter (fun w => w ∈ tokens b)).length ≤ (tokens b).length := by
    refine List.Subperm.length_le (List.subperm_of_subset ?_ ?_)
    · exact List.Nodup.filter _ (List.nodup_dedup _)
    · intro x hx
      have := (List.mem_filter.mp hx).2
      simpa using this
  simp only [token_set_score]
  split
  · omega
  · exact Nat.div_le_of_le_mul (by omega)

theorem fill_id (fz : String → String → Nat) (q : String) (t : Track) :
    (fill fz q t).id = t.id := by
  cases h : t.score <;> simp [fill, h]

theorem fill_score (fz : String → String → Nat) (q : String) (t : Track) :
    (fill fz q t).score = some (scoreOf fz q t) := by
  cases h : t.score <;> simp [fill, scoreOf, h]

theorem mem_collectLoop (fz : String → String → Nat) (q : String) :
    ∀ (l : List Track) (seen : List String) (t : Track), t ∈ collectLoop fz q seen l →
      (∃ i, t.id = some i ∧ i ≠ "" ∧ i ∉ seen) ∧ ∃ s, t.score = some s ∧ 45 < s
  | [], seen, t, h => by simp [collectLoop] at h
  | x :: xs, seen, t, h => by
    simp only [collectLoop] at h
    split at h
    · exact mem_collectLoop fz q xs seen t h
    · rename_i tid hid
      split at h
      · exact mem_collectLoop fz q xs seen t h
      · rename_i h0
        split at h
        · exact mem_collectLoop fz q xs seen t h
        · rename_i h1
          split at h
          · rename_i h2
            rcases List.mem_cons.mp h with rfl | hmem
            · refine ⟨⟨tid, ?_, h0, h1⟩, scoreOf fz q x, fill_score fz q x, ?_⟩
              · rw [fill_id, hid]
              · rwa [fill_score, Option.getD_some] at h2
            · obtain ⟨⟨i, hi, hne, hnotin⟩, hs⟩ := mem_collectLoop fz q xs (tid :: seen) t hmem
              exact ⟨⟨i, hi, hne, fun hc => hnotin (List.mem_cons_of_mem _ hc)⟩, hs⟩
          · exact mem_collectLoop fz q xs seen t h

theorem collectLoop_pairwise (fz : String → String → Nat) (q : String) :
    ∀ (l : List Track) (seen : List String),
      (collectLoop fz q seen l).Pairwise (fun a b => a.id ≠ b.id)
  | [], seen => by simp [collectLoop]
  | x :: xs, seen => by
    simp only [collectLoop]
    split
    · exact collectLoop_pairwise fz q xs seen
    · rename_i tid hid
      split
      · exact collectLoop_pairwise fz q xs seen
      · split
        · exact collectLoop_pairwise fz q xs seen
        · split
          · refine List.Pairwise.cons ?_ (collectLoop_pairwise fz q xs (tid :: seen))
            intro b hb
            obtain ⟨⟨i, hi, hne, hnotin⟩, -⟩ := mem_collectLoop fz q xs (tid :: seen) b hb
            show (fill fz q x).id ≠ b.id
            rw [fill_id, hid, hi]
            intro hcontra
            exact hnotin (List.mem_cons.mpr (Or.inl (Option.some.inj hcontra).symm))
          · exact collectLoop_pairwise fz q xs seen

theorem qualifies_of_id_none {fz : String → String → Nat} {q : String} {t : Track}
    (h : t.id = none) : qualifies fz q t = false := by
  simp [qualifies, h]

theorem collectLoop_first (fz : String → String → Nat) (q : String) :
    ∀ (l : List Track) (seen : List String) (t : Track), t ∈ collectLoop fz q seen l →
      ∃ l₁ t₀ l₂, l = l₁ ++ t₀ :: l₂ ∧ fill fz q t₀ = t ∧ qualifies fz q t₀ = true ∧
        ∀ u ∈ l₁, u.id = t.id → qualifies fz q u = false
  | [], seen, t, h => by simp [collectLoop] at h
  | x :: xs, seen, t, h => by
    simp only [collectLoop] at h
    split at h
    · rename_i hid
      obtain ⟨l₁, t₀, l₂, hsplit, hfill, hq, hfirst⟩ := collectLoop_first fz q xs seen t h
      refine ⟨x :: l₁, t₀, l₂, by rw [hsplit]; rfl, hfill, hq, ?_⟩
      intro u hu
      rcases List.mem_cons.mp hu with rfl | hu'
      · intro _
        exact qualifies_of_id_none hid
      · exact hfirst u hu'
    · rename_i tid hid
      split at h
      · rename_i h0
        obtain ⟨l₁, t₀, l₂, hsplit, hfill, hq, hfirst⟩ := collectLoop_first fz q xs seen t h
        refine ⟨x :: l₁, t₀, l₂, by rw [hsplit]; rfl, hfill, hq, ?_⟩
        intro u hu
        rcases List.mem_cons.mp hu with rfl | hu'
        · intro _
          simp [qualifies, hid, h0]
        · exact hfirst u hu'
      · rename_i h0
        split at h
        · rename_i h1
          obtain ⟨⟨i, hi, hine, hnotin⟩, -⟩ := mem_collectLoop fz q xs seen t h
          obtain ⟨l₁, t₀, l₂, hsplit, hfill, hq, hfirst⟩ := collectLoop_first fz q xs seen t h
          refine ⟨x :: l₁, t₀, l₂, by rw [hsplit]; rfl, hfill, hq, ?_⟩
          intro u hu
          rcases List.mem_cons.mp hu with rfl | hu'
          · intro heq
            rw [hid, hi] at heq
            exact absurd (Option.some.inj heq ▸ h1) hnotin
          · exact hfirst u hu'
        · rename_i h1
          split at h
          · rename_i h2
            rcases List.mem_cons.mp h with rfl | hmem
            · refine ⟨[], x, xs, rfl, rfl, ?_, by simp⟩
              rw [fill_score, Option.getD_some] at h2
              simp [qualifies, hid, h0, h2]
            · obtain ⟨⟨i, hi, hine, hnotin⟩, -⟩ := mem_collectLoop fz q xs (tid :: seen) t hmem
              obtain ⟨l₁, t₀, l₂, hsplit, hfill, hq, hfirst⟩ :=
                collectLoop_first fz q xs (tid :: seen) t hmem
              refine ⟨x :: l₁, t₀, l₂, by rw [hsplit]; rfl, hfill, hq, ?_⟩
              intro u hu
              rcases List.mem_cons.mp hu with rfl | hu'
              · intro heq
                rw [hid, hi] at heq
                exact absurd (List.mem_cons.mpr (Or.inl (Option.some.inj heq).symm)) hnotin
              · exact hfirst u hu'
          · rename_i h2
            rw [fill_score, Option.getD_some] at h2
            obtain ⟨l₁, t₀, l₂, hsplit, hfill, hq, hfirst⟩ := collectLoop_first fz q xs seen t h
            refine ⟨x :: l₁, t₀, l₂, by rw [hsplit]; rfl, hfill, hq, ?_⟩
            intro u hu
            rcases List.mem_cons.mp hu with rfl | hu'
            · intro _
              simp [qualifies, hid, h2]
            · exact hfirst u hu'

theorem rank_ok {l res : List Track} (h : rank l = Except.ok res) :
    res = (List.insertionSort rankGE l).take 150 := by
  unfold rank at h
  split at h
  · exact (Except.ok.inj h).symm
  · exact Except.noConfusion h

theorem rank_mem {l res : List Track} (h : rank l = Except.ok res) :
    ∀ t ∈ res, t ∈ l := by
  intro t ht
  rw [rank_ok h] at ht
  exact (List.perm_insertionSort rankGE l).subset ((List.take_sublist _ _).subset ht)

theorem rank_length {l res : List Track} (h : rank l = Except.ok res) :
    res.length ≤ 150 := by
  rw [rank_ok h, List.length_take]
  exact min_le_left _ _

theorem rank_sorted {l res : List Track} (h : rank l = Except.ok res) :
    res.Pairwise rankGE :=
  rank_ok h ▸ List.Pairwise.sublist (List.take_sublist _ _) (List.sorted_insertionSort rankGE l)

theorem rank_pairwise_of {l res : List Track} {R : Track → Track → Prop}
    (hsym : ∀ a b, R a b → R b a) (h : rank l = Except.ok res) (hp : l.Pairwise R) :
    res.Pairwise R := by
  rw [rank_ok h]
  apply List.Pairwise.sublist (List.take_sublist _ _)
  exact ((List.perm_insertionSort rankGE l).pairwise_iff (fun hxy => hsym _ _ hxy)).mpr hp

theorem cacheGet_mem {c : Cache} {now : Nat} {k : String} {v : List Track}
    (h : cacheGet c now k = some v) : ∃ e ∈ c, e.val = v := by
  unfold cacheGet at h
  split at h
  · rename_i e hf
    split at h
    · exact ⟨e, List.mem_of_find?_eq_some hf, Option.some.inj h⟩
    · cases h
  · cases h

theorem search_short {fz : String → String → Nat} {cache : Cache} {now : Nat}
    {streams : List (List Track)} {rawq : String}
    (hlen : (normalize rawq).length < 2) :
    search fz cache now streams rawq = (Except.ok [], cache, 0) := by
  simp only [search, if_pos hlen]

theorem search_hit {fz : String → String → Nat} {cache : Cache} {now : Nat}
    {streams : List (List Track)} {rawq : String} {v : List Track}
    (hlen : ¬ (normalize rawq).length < 2)
    (hhit : cacheGet cache now (normalize rawq) = some v) :
    search fz cache now streams rawq = (Except.ok v, cache, 0) := by
  simp only [search, if_neg hlen, hhit]

theorem search_miss {fz : String → String → Nat} {cache : Cache} {now : Nat}
    {streams : List (List Track)} {rawq : String}
    (hlen : ¬ (normalize rawq).length < 2)
    (hmiss : cacheGet cache now (normalize rawq) = none) :
    search fz cache now streams rawq =
      match rank (collectLoop fz (normalize rawq) [] streams.flatten) with
      | Except.error e => (Except.error e, cache, 23)
      | Except.ok final =>
        (Except.ok final, cachePut cache (now + 1800) (normalize rawq) final, 23) := by
  simp only [search, if_neg hlen, hmiss]

theorem search_preserves {fz : String → String → Nat} {cache : Cache} {now : Nat}
    {streams : List (List Track)} {rawq : String} {res : List Track} {c' : Cache} {d : Nat}
    (P : List Track → Prop)
    (hrank : ∀ r, rank (collectLoop fz (normalize rawq) [] streams.flatten) = Except.ok r → P r)
    (hnil : P [])
    (hc : ∀ e ∈ cache, P e.val)
    (h : search fz cache now streams rawq = (Except.ok res, c', d)) :
    P res ∧ ∀ e ∈ c', P e.val := by
  by_cases hlen : (normalize rawq).length < 2
  · rw [search_short hlen] at h
    injection h with h1 h2
    injection h2 with h2 h3
    injection h1 with h1
    subst h1
    subst h2
    exact ⟨hnil, hc⟩
  · cases hget : cacheGet cache now (normalize rawq) with
    | some v =>
      rw [search_hit hlen hget] at h
      injection h with h1 h2
      injection h2 with h2 h3
      injection h1 with h1
      subst h1
      subst h2
      obtain ⟨e, he, hev⟩ := cacheGet_mem hget
      exact ⟨hev ▸ hc e he, hc⟩
    | none =>
      rw [search_miss hlen hget] at h
      cases hr : rank (collectLoop fz (normalize rawq) [] streams.flatten) with
      | error err =>
        rw [hr] at h
        injection h with h1 h2
        exact Except.noConfusion h1
      | ok final =>
        rw [hr] at h
        injection h with h1 h2
        injection h2 with h2 h3
        injection h1 with h1
        subst h1
        subst h2
        refine ⟨hrank _ hr, ?_⟩
        intro e he
        unfold cachePut at he
        rcases List.mem_cons.mp he with rfl | he'
        · exact hrank _ hr
        · exact hc e (List.mem_filter.mp he').1

theorem mem_artistMatches (fz : String → String → Nat) (q : String) :
    ∀ (xs : List JsonItem) (t : Track), t ∈ artistMatches fz q xs →
      ∃ s, t.score = some s ∧ 45 < s
  | [], t, h => by simp [artistMatches] at h
  | .nondict :: rest, t, h => by
    simp only [artistMatches] at h
    exact mem_artistMatches fz q rest t h
  | .dict u :: rest, t, h => by
    simp only [artistMatches] at h
    split at h
    · rename_i hscore
      rcases List.mem_cons.mp h with rfl | hmem
      · exact ⟨calculate_score fz q u, rfl, hscore⟩
      · exact mem_artistMatches fz q rest t hmem
    · exact mem_artistMatches fz q rest t h

theorem mem_fetch_artist {fz : String → String → Nat} {artist q : String} {r : Response}
    {t : Track} (h : t ∈ fetch_artist fz artist q r) : ∃ s, t.score = some s ∧ 45 < s := by
  cases r with
  | exc => simp [fetch_artist] at h
  | resp s body =>
    simp only [fetch_artist] at h
    split at h
    · exact absurd h (List.not_mem_nil t)
    · exact mem_artistMatches fz q _ t h
    · exact absurd h (List.not_mem_nil t)

/-! ### Claims -/

/-- C1 (code bug): the claim says the ranking step parses `playback_count`
"as an integer with a 0 default for unparsable/missing values" and that the
pipeline never raises a fatal error regardless of field shapes. In the code,
`int(x.get('playback_count', 0))` defaults only when the field is ABSENT; a
present but unparsable value (the string "12a" here, on an item that passes
the score floor) raises an uncaught ValueError during sorting, aborting the
request. The embedded `search` returns `Except.error` on this input and the
cache is left unchanged. -/
theorem C1_unparsable_plays_is_fatal :
    search token_set_score [] 0 [[tBad]] "song ok" = (Except.error (), [], 23) := by
  rfl

/-- C2 (counterexample): a downloadable split-match item scores 95, not the
claimed 95 + 5 = 100 — the split-match branch `return 95` fires before the
download bonus statement is reached. -/
theorem C2_split_bonus_cex :
    calculate_score token_set_score "swag wakhra" wakhraTrack = 95 ∧
      calculate_score token_set_score "swag wakhra" wakhraTrack ≠ 100 := by
  constructor
  · rfl
  · decide

/-- C2 (amended): only the fuzzy branch receives the +5 download bonus. A
split-match item (no exact title containment, multi-word query with every
part in title+owner) scores a flat 95 downloadable or not, and a downloadable
fuzzy-branch item scores the fuzzy similarity plus 5. -/
theorem C2_bonus_only_fuzzy (fz : String → String → Nat) (q : String) (t : Track) :
    (py_in q (pylower t.title) = false → split_match q t = true →
      calculate_score fz q t = 95) ∧
    (py_in q (pylower t.title) = false → split_match q t = false →
      isTruthy t.download_url = true →
      calculate_score fz q t = fz q (combined t) + 5) := by
  constructor
  · intro h1 h2
    simp [calculate_score, h1, h2]
  · intro h1 h2 h3
    simp [calculate_score, h1, h2, h3]

theorem C2_bonus_only_fuzzy_witness :
    calculate_score token_set_score "swag wakhra" wakhraTrack = 95 ∧
      calculate_score token_set_score "zzzz" fuzzyTrack =
        token_set_score "zzzz" (combined fuzzyTrack) + 5 :=
  ⟨(C2_bonus_only_fuzzy token_set_score "swag wakhra" wakhraTrack).1 (by decide) (by decide),
   (C2_bonus_only_fuzzy token_set_score "zzzz" fuzzyTrack).2 (by decide) (by decide) (by decide)⟩

/-- C3 (counterexample): the entity fetcher never inspects the HTTP status:
a non-success (500) response whose body is a well-formed JSON array holding a
matching track yields a non-empty result list, refuting "any non-success
status yields an empty result list" for `fetch_artist`. -/
theorem C3_status_ignored_cex :
    fetch_artist token_set_score "djnyk" "zz"
      (Response.resp 500 (some (JsonShape.jlist [JsonItem.dict tZ]))) ≠ [] := by
  decide

/-- C3 (amended): both fetchers are fail-soft — any exception (network error,
timeout, undecodable payload) yields `[]` and is never propagated; the broad
fetcher additionally returns `[]` on every non-200 status and on non-array,
non-object payloads; the entity fetcher returns `[]` on undecodable or
non-array payloads but ignores the HTTP status entirely (its output is the
same for any two statuses with the same body). -/
theorem C3_fail_soft (fz : String → String → Nat) (artist q : String) :
    fetch_global Response.exc = [] ∧
    (∀ s b, s ≠ 200 → fetch_global (Response.resp s b) = []) ∧
    (∀ s, fetch_global (Response.resp s none) = []) ∧
    (∀ s, fetch_global (Response.resp s (some JsonShape.jother)) = []) ∧
    fetch_artist fz artist q Response.exc = [] ∧
    (∀ s, fetch_artist fz artist q (Response.resp s none) = []) ∧
    (∀ s kvs, fetch_artist fz artist q (Response.resp s (some (JsonShape.jobj kvs))) = []) ∧
    (∀ s, fetch_artist fz artist q (Response.resp s (some JsonShape.jother)) = []) ∧
    (∀ s s' b, fetch_artist fz artist q (Response.resp s b) =
      fetch_artist fz artist q (Response.resp s' b)) := by
  refine ⟨rfl, ?_, ?_, ?_, rfl, fun s => rfl, fun s kvs => rfl, fun s => rfl,
    fun s s' b => rfl⟩
  · intro s b hs
    simp [fetch_global, hs]
  · intro s
    by_cases hs : s = 200 <;> simp [fetch_global, hs]
  · intro s
    by_cases hs : s = 200 <;> simp [fetch_global, hs]

theorem C3_fail_soft_witness :
    fetch_global (Response.resp 500 (some (JsonShape.jlist [JsonItem.dict tZ]))) = [] ∧
      fetch_artist token_set_score "djnyk" "zz" (Response.resp 500 none) = [] :=
  ⟨(C3_fail_soft token_set_score "djnyk" "zz").2.1 500 (some (JsonShape.jlist [JsonItem.dict tZ]))
      (by decide),
   (C3_fail_soft token_set_score "djnyk" "zz").2.2.2.2.2.1 500⟩

/-- C4 (counterexample): two fetch results share id "7"; the first in
completion order scores 0 (below the floor) so it does not claim the id, and
the LATER duplicate — an exact match scoring 100 — is the one returned. The
claim's "first occurrence wins and later duplicates are dropped even if their
score differs" fails. -/
theorem C4_first_wins_cex :
    (search token_set_score [] 0 [[tMiss], [tHit]] "zzzz").1 =
      Except.ok [{ tHit with score := some 100 }] ∧ tMiss ≠ tHit := by
  constructor
  · rfl
  · decide

/-- C4 (amended): a returned ResultSet never holds two entries with the same
identity; every entry has a truthy identity (items lacking one are dropped in
deduplication); and the entry kept for an identity is the first occurrence in
completion order that QUALIFIES (truthy id and score strictly above 45): all
earlier same-id occurrences fail the qualification test, so a first occurrence
at or below the floor loses to a later qualifying duplicate. -/
theorem C4_dedup (fz : String → String → Nat) (cache : Cache) (now : Nat)
    (streams : List (List Track)) (rawq : String) (res : List Track) (c' : Cache) (d : Nat)
    (hmiss : cacheGet cache now (normalize rawq) = none)
    (h : search fz cache now streams rawq = (Except.ok res, c', d)) :
    res.Pairwise (fun a b => a.id ≠ b.id) ∧
    ∀ t ∈ res, (∃ i, t.id = some i ∧ i ≠ "") ∧
      ∃ l₁ t₀ l₂, streams.flatten = l₁ ++ t₀ :: l₂ ∧ fill fz (normalize rawq) t₀ = t ∧
        qualifies fz (normalize rawq) t₀ = true ∧
        ∀ u ∈ l₁, u.id = t.id → qualifies fz (normalize rawq) u = false := by
  by_cases hlen : (normalize rawq).length < 2
  · rw [search_short hlen] at h
    injection h with h1 h2
    injection h1 with h1
    subst h1
    exact ⟨List.Pairwise.nil, by simp⟩
  · rw [search_miss hlen hmiss] at h
    cases hr : rank (collectLoop fz (normalize rawq) [] streams.flatten) with
    | error err =>
      rw [hr] at h
      injection h with h1 h2
      exact Except.noConfusion h1
    | ok final =>
      rw [hr] at h
      injection h with h1 h2
      injection h1 with h1
      subst h1
      refine ⟨rank_pairwise_of (fun a b hab hba => hab hba.symm) hr
        (collectLoop_pairwise fz _ _ _), ?_⟩
      intro t ht
      have hmem := rank_mem hr t ht
      obtain ⟨⟨i, hi, hine, -⟩, -⟩ := mem_collectLoop fz _ _ _ t hmem
      obtain ⟨l₁, t₀, l₂, hsplit, hfill, hq, hfirst⟩ := collectLoop_first fz _ _ _ t hmem
      exact ⟨⟨i, hi, hine⟩, l₁, t₀, l₂, hsplit, hfill, hq, hfirst⟩

theorem C4_dedup_witness :
    (([{ tGood with score := some 100 }] : List Track).Pairwise fun a b => a.id ≠ b.id) ∧
      ∀ t ∈ ([{ tGood with score := some 100 }] : List Track),
        (∃ i, t.id = some i ∧ i ≠ "") ∧
        ∃ l₁ t₀ l₂, ([[tGood]] : List (List Track)).flatten = l₁ ++ t₀ :: l₂ ∧
          fill token_set_score (normalize "zzzz") t₀ = t ∧
          qualifies token_set_score (normalize "zzzz") t₀ = true ∧
          ∀ u ∈ l₁, u.id = t.id → qualifies token_set_score (normalize "zzzz") u = false :=
  C4_dedup token_set_score [] 0 [[tGood]] "zzzz" [{ tGood with score := some 100 }]
    [CacheEntry.mk "zzzz" 1800 [{ tGood with score := some 100 }]] 23 rfl rfl

/-- C5: exact containment wins outright: whenever the normalized query occurs
as a literal substring of the lower-cased title, the scorer returns exactly
100 — the early return skips the +5 download bonus, so this holds for
downloadable items too (the witness item is downloadable). -/
theorem C5_exact_match_100 (fz : String → String → Nat) (q : String) (t : Track)
    (h : py_in q (pylower t.title) = true) : calculate_score fz q t = 100 := by
  simp [calculate_score, h]

theorem C5_exact_match_100_witness :
    isTruthy dlTrack.download_url = true ∧
      calculate_score token_set_score "zzzz" dlTrack = 100 :=
  ⟨rfl, C5_exact_match_100 token_set_score "zzzz" dlTrack (by decide)⟩

/-- C6: the relevance floor: every item in a ResultSet returned by `search`
(for any cache whose stored ResultSets already satisfy the floor, as all sets
stored by `search` do) carries a score strictly greater than 45, and every
item returned by the entity fetcher's pre-filter does as well; the new cache
state keeps the invariant. -/
theorem C6_floor (fz : String → String → Nat) (cache : Cache) (now : Nat)
    (streams : List (List Track)) (rawq : String) (res : List Track) (c' : Cache) (d : Nat)
    (hc : ∀ e ∈ cache, ∀ t ∈ e.val, ∃ s, t.score = some s ∧ 45 < s)
    (h : search fz cache now streams rawq = (Except.ok res, c', d)) :
    ((∀ t ∈ res, ∃ s, t.score = some s ∧ 45 < s) ∧
      ∀ e ∈ c', ∀ t ∈ e.val, ∃ s, t.score = some s ∧ 45 < s) ∧
    ∀ (artist q' : String) (r : Response) (t : Track),
      t ∈ fetch_artist fz artist q' r → ∃ s, t.score = some s ∧ 45 < s := by
  constructor
  · exact search_preserves (fun l => ∀ t ∈ l, ∃ s, t.score = some s ∧ 45 < s)
      (fun r hr t ht => (mem_collectLoop fz _ _ _ t (rank_mem hr t ht)).2)
      (by simp) hc h
  · intro artist q' r t ht
    exact mem_fetch_artist ht

theorem C6_floor_witness :
    ((∀ t ∈ ([{ tGood with score := some 100 }] : List Track),
        ∃ s, t.score = some s ∧ 45 < s) ∧
      ∀ e ∈ ([CacheEntry.mk "zzzz" 1800 [{ tGood with score := some 100 }]] : Cache),
        ∀ t ∈ e.val, ∃ s, t.score = some s ∧ 45 < s) ∧
    ∀ (artist q' : String) (r : Response) (t : Track),
      t ∈ fetch_artist token_set_score artist q' r → ∃ s, t.score = some s ∧ 45 < s :=
  C6_floor token_set_score [] 0 [[tGood]] "zzzz" [{ tGood with score := some 100 }]
    [CacheEntry.mk "zzzz" 1800 [{ tGood with score := some 100 }]] 23 (by simp) rfl

/-- C7: ranking and truncation: every ResultSet returned by `search` (for any
cache whose stored sets already satisfy the property, as all sets stored by
`search` do) has length at most 150 and is sorted so that each adjacent pair
descends by score, with the parsed popularity counter breaking ties
descending; the new cache state keeps the invariant. -/
theorem C7_ranking (fz : String → String → Nat) (cache : Cache) (now : Nat)
    (streams : List (List Track)) (rawq : String) (res : List Track) (c' : Cache) (d : Nat)
    (hc : ∀ e ∈ cache, e.val.length ≤ 150 ∧
      e.val.Pairwise (fun a b => b.score.getD 0 < a.score.getD 0 ∨
        (a.score.getD 0 = b.score.getD 0 ∧ playsD b ≤ playsD a)))
    (h : search fz cache now streams rawq = (Except.ok res, c', d)) :
    (res.length ≤ 150 ∧
      res.Pairwise (fun a b => b.score.getD 0 < a.score.getD 0 ∨
        (a.score.getD 0 = b.score.getD 0 ∧ playsD b ≤ playsD a))) ∧
    ∀ e ∈ c', e.val.length ≤ 150 ∧
      e.val.Pairwise (fun a b => b.score.getD 0 < a.score.getD 0 ∨
        (a.score.getD 0 = b.score.getD 0 ∧ playsD b ≤ playsD a)) := by
  refine search_preserves
    (fun l => l.length ≤ 150 ∧ l.Pairwise (fun a b => b.score.getD 0 < a.score.getD 0 ∨
      (a.score.getD 0 = b.score.getD 0 ∧ playsD b ≤ playsD a)))
    ?_ ⟨by simp, List.Pairwise.nil⟩ hc h
  intro r hr
  refine ⟨rank_length hr, ?_⟩
  have hs := rank_sorted hr
  unfold rankGE at hs
  exact hs

theorem C7_ranking_witness :
    (([{ tGood with score := some 100 }] : List Track).length ≤ 150 ∧
      ([{ tGood with score := some 100 }] : List Track).Pairwise
        (fun a b => b.score.getD 0 < a.score.getD 0 ∨
          (a.score.getD 0 = b.score.getD 0 ∧ playsD b ≤ playsD a))) ∧
    ∀ e ∈ ([CacheEntry.mk "zzzz" 1800 [{ tGood with score := some 100 }]] : Cache),
      e.val.length ≤ 150 ∧
        e.val.Pairwise (fun a b => b.score.getD 0 < a.score.getD 0 ∨
          (a.score.getD 0 = b.score.getD 0 ∧ playsD b ≤ playsD a)) :=
  C7_ranking token_set_score [] 0 [[tGood]] "zzzz" [{ tGood with score := some 100 }]
    [CacheEntry.mk "zzzz" 1800 [{ tGood with score := some 100 }]] 23 (by simp) rfl

/-- C8: idempotence within TTL: if a first call for a query (a cache miss that
computes and stores the set `v`) succeeds, then any second call whose raw
query normalizes identically, issued while the stored entry is younger than
the 1800-second TTL and with no intervening eviction, returns the identical
ResultSet `v`, leaves the cache untouched and dispatches zero fetches. -/
theorem C8_cache_idem (fz : String → String → Nat) (c0 : Cache) (t0 t1 : Nat)
    (s0 s1 : List (List Track)) (raw1 raw2 : String) (v : List Track) (c1 : Cache) (d : Nat)
    (hnorm : normalize raw1 = normalize raw2)
    (hlen : 2 ≤ (normalize raw1).length)
    (hmiss : cacheGet c0 t0 (normalize raw1) = none)
    (h1 : search fz c0 t0 s0 raw1 = (Except.ok v, c1, d))
    (ht : t1 < t0 + 1800) :
    search fz c1 t1 s1 raw2 = (Except.ok v, c1, 0) := by
  have hlen1 : ¬ (normalize raw1).length < 2 := by omega
  rw [search_miss hlen1 hmiss] at h1
  cases hr : rank (collectLoop fz (normalize raw1) [] s0.flatten) with
  | error err =>
    rw [hr] at h1
    injection h1 with ha hb
    exact Except.noConfusion ha
  | ok final =>
    rw [hr] at h1
    injection h1 with ha hb
    injection hb with hb hd
    injection ha with ha
    subst ha
    subst hb
    have hget : cacheGet (cachePut c0 (t0 + 1800) (normalize raw1) final) t1
        (normalize raw2) = some final := by
      unfold cachePut cacheGet
      rw [← hnorm]
      rw [List.find?_cons_of_pos]
      · simp [ht]
      · simp
    have hlen2 : ¬ (normalize raw2).length < 2 := by
      rw [← hnorm]
      omega
    exact search_hit hlen2 hget

theorem C8_cache_idem_witness :
    search token_set_score [CacheEntry.mk "zzzz" 1800 [{ tGood with score := some 100 }]]
        10 [] "zzzz" =
      (Except.ok [{ tGood with score := some 100 }],
        [CacheEntry.mk "zzzz" 1800 [{ tGood with score := some 100 }]], 0) :=
  C8_cache_idem token_set_score [] 0 10 [[tGood]] [] "zzzz" "zzzz"
    [{ tGood with score := some 100 }]
    [CacheEntry.mk "zzzz" 1800 [{ tGood with score := some 100 }]] 23 rfl (by decide)
    rfl rfl (by decide)

/-- C9: queries whose trimmed, lower-cased form is shorter than 2 characters
short-circuit: `search` answers the empty list (not an error), leaves the
cache untouched, and dispatches zero fetch operations. -/
theorem C9_short_circuit (fz : String → String → Nat) (cache : Cache) (now : Nat)
    (streams : List (List Track)) (rawq : String)
    (h : (normalize rawq).length < 2) :
    search fz cache now streams rawq = (Except.ok [], cache, 0) :=
  search_short h

theorem C9_short_circuit_witness :
    search token_set_score [] 0 [] " a " = (Except.ok [], [], 0) :=
  C9_short_circuit token_set_score [] 0 [] " a " (by decide)

/-- C10: with the fuzzy similarity bounded by 100 (the spec fixes rapidfuzz's
token-set similarity to the range 0-100), the scorer's output always lies
between 0 and 105 inclusive: the exact branch yields 100, the split branch
95, and the fuzzy branch at most 100 plus the +5 bonus. -/
theorem C10_score_bound (fz : String → String → Nat) (q : String) (t : Track)
    (hfz : ∀ a b, fz a b ≤ 100) :
    calculate_score fz q t ≤ 105 := by
  simp only [calculate_score]
  split
  · omega
  · split
    · omega
    · have := hfz q (combined t)
      split <;> omega

theorem C10_score_bound_witness :
    calculate_score token_set_score "zzzz" tMiss ≤ 105 :=
  C10_score_bound token_set_score "zzzz" tMiss (fun a b => token_set_score_le a b)

end App
